import Mathlib

/-!
Verification development for the base-auth repository.

The definitions below are shallow embeddings of the TypeScript sources under
src/lib (crypto.ts, signature.ts, totp.ts, ipfs.ts, googleAuthMigration.ts).
Strings are modelled as lists of characters, byte buffers as lists of natural
numbers below 256, and the JavaScript 32-bit integer wrap-around of the shift
operators is made explicit with a modulus of 4294967296.  Platform primitives
that are not repository code (WebCrypto AES-GCM, SHA-256, PBKDF2, btoa/atob,
TextEncoder/TextDecoder, JSON.stringify/parse) are modelled from their
specifications, as noted on each definition.
-/

set_option maxHeartbeats 2000000
set_option maxRecDepth 100000

/-! ## Character helpers -/

/-- A hexadecimal digit, as accepted by the regex [a-fA-F0-9], phrased over
    code points. -/
def isHexChar (c : Char) : Bool :=
  (48 ≤ c.toNat && c.toNat ≤ 57) || (97 ≤ c.toNat && c.toNat ≤ 102)
    || (65 ≤ c.toNat && c.toNat ≤ 70)

/-- ASCII simple case mapping, modelling String.prototype.toUpperCase on the
    character ranges the repository feeds it (the model is exact on ASCII). -/
def jsToUpper (c : Char) : Char :=
  if 97 ≤ c.toNat && c.toNat ≤ 122 then Char.ofNat (c.toNat - 32) else c

/-- The JavaScript regular-expression whitespace class backslash-s,
    as a predicate on code points. -/
def isJsSpace (c : Char) : Bool :=
  (c.toNat ∈ [9, 10, 11, 12, 13, 32, 160, 0x1680, 0x2028, 0x2029,
               0x202F, 0x205F, 0x3000, 0xFEFF])
  || (0x2000 ≤ c.toNat && c.toNat ≤ 0x200A)

/-! ## src/lib/signature.ts -/

/-- Matching against the anchored regex caret 0x[a-fA-F0-9]+ dollar: the
    string opens with the two characters 0x and continues with one or more
    hex characters. -/
def hexRegexTest (s : List Char) : Bool :=
  s.take 2 == ['0', 'x'] && !(s.drop 2).isEmpty && (s.drop 2).all isHexChar

/-- Model of isValidSignature (src/lib/signature.ts lines 17-25): the falsy
    guard rejects the empty string, then the string must match the regex
    caret 0x[a-fA-F0-9]+ dollar and have total length at least 130,
    the 0x prefix included. -/
def isValidSignature (signature : List Char) : Bool :=
  (!signature.isEmpty) && hexRegexTest signature
    && decide (130 ≤ signature.length)

/-- The validity predicate exactly as claim C3 words it: a well-formed hex
    string with at least 130 hex characters after an optional 0x prefix.
    This definition follows the claim, not the source, and is compared with
    isValidSignature. -/
def specSignatureValid (s : List Char) : Bool :=
  let hx := if s.take 2 = ['0', 'x'] then s.drop 2 else s
  hx.all isHexChar && decide (130 ≤ hx.length)

/-! ## src/lib/totp.ts -/

/-- Model of getTimeRemaining (src/lib/totp.ts lines 34-37).  The rounded unix
    epoch second, read from the clock in the source, is passed as the
    argument.  The period is the hard-coded constant 30. -/
def getTimeRemaining (epoch : Nat) : Nat := 30 - epoch % 30

/-! ## src/lib/crypto.ts: secret validation -/

/-- Model of cleanSecret (src/lib/crypto.ts lines 146-148): strip every
    whitespace character, then uppercase. -/
def cleanSecret (s : List Char) : List Char :=
  (s.filter (fun c => !isJsSpace c)).map jsToUpper

/-- Membership in the base32 alphabet character class [A-Z2-7], phrased over
    code points. -/
def isBase32Alpha (c : Char) : Bool :=
  (65 ≤ c.toNat && c.toNat ≤ 90) || (50 ≤ c.toNat && c.toNat ≤ 55)

/-- Matching against the anchored regex caret [A-Z2-7]+ equals-star dollar.
    Because the padding character is outside the [A-Z2-7] class, the match
    splits uniquely at the longest alphabet prefix. -/
def base32RegexTest (t : List Char) : Bool :=
  (!(t.takeWhile isBase32Alpha).isEmpty)
    && (t.dropWhile isBase32Alpha).all (fun c => c == '=')

/-- Model of validateSecret (src/lib/crypto.ts lines 138-144). -/
def validateSecret (s : List Char) : Bool :=
  base32RegexTest (cleanSecret s) && decide (16 ≤ (cleanSecret s).length)

/-! ## src/lib/crypto.ts: hex decoding and key derivation -/

/-- The numeric value of a hexadecimal digit; non-digits contribute zero,
    matching the stored value of a parseInt NaN result in a typed array. -/
def hexVal (c : Char) : Nat :=
  if 48 ≤ c.toNat && c.toNat ≤ 57 then c.toNat - 48
  else if 97 ≤ c.toNat && c.toNat ≤ 102 then c.toNat - 87
  else if 65 ≤ c.toNat && c.toNat ≤ 70 then c.toNat - 55
  else 0

/-- parseInt of a two-character slice with radix 16: an invalid first digit
    yields NaN, which a typed-array store turns into 0; an invalid second
    digit leaves the one-digit prefix value. -/
def hexPairByte (c1 c2 : Char) : Nat :=
  if isHexChar c1 then
    if isHexChar c2 then 16 * hexVal c1 + hexVal c2 else hexVal c1
  else 0

/-- The two-characters-at-a-time loop of hexToUint8Array; a trailing lone
    character is parsed, but its store lands past the typed array's length
    (which truncates cleanHex.length / 2) and is dropped. -/
def hexPairs : List Char → List Nat
  | c1 :: c2 :: rest => hexPairByte c1 c2 :: hexPairs rest
  | _ => []

/-- Model of hexToUint8Array (src/lib/crypto.ts lines 55-64): strip an
    optional 0x prefix, then convert hex digit pairs to bytes. -/
def hexToUint8Array (hexString : List Char) : List Nat :=
  hexPairs (if hexString.take 2 = ['0', 'x'] then hexString.drop 2 else hexString)

/-- Injective length-prefixed concatenation of two byte lists.  This is the
    byte-level pairing on which the symbolic models of the platform crypto
    primitives below are built; its image stays inside byte lists. -/
def encPair (a b : List Nat) : List Nat :=
  List.replicate a.length 1 ++ 0 :: a ++ b

/-- Partial inverse of encPair. -/
def decPair (l : List Nat) : Option (List Nat × List Nat) :=
  let n := (l.takeWhile (fun x => x == 1)).length
  match l.drop n with
  | 0 :: rest => some (rest.take n, rest.drop n)
  | _ => none

/-- Modelled from the spec: the SHA-256 digest normalizing the signature
    bytes into fixed key material (spec section 4.1).  The development relies
    only on the digest being a deterministic injective function of the
    message, so it is modelled as the message itself. -/
def sha256 (message : List Nat) : List Nat := message

/-- Modelled from the spec: the 100000-iteration PBKDF2 with SHA-256 over
    the hashed signature and the fresh 16-byte salt (spec section 4.1).  The
    development relies only on the derived key being a deterministic
    injective function of the pair of inputs, so the key is modelled as the
    injective pairing of key material and salt. -/
def pbkdf2Sha256 (keyMaterial salt : List Nat) : List Nat :=
  encPair keyMaterial salt

/-- Model of deriveKeyFromSignature (src/lib/crypto.ts lines 27-53). -/
def deriveKeyFromSignature (signature : List Char) (salt : List Nat) : List Nat :=
  pbkdf2Sha256 (sha256 (hexToUint8Array signature)) salt

/-- Modelled from the spec: crypto.subtle AES-GCM encryption (spec section
    4.2, Authenticated Cipher).  The authenticated ciphertext is modelled
    symbolically as the injective pairing of key, iv and plaintext, so that
    decryption can verify key and iv and recover the plaintext. -/
def aesGcmEncrypt (key iv plaintext : List Nat) : List Nat :=
  encPair key (encPair iv plaintext)

/-- Modelled from the spec: crypto.subtle AES-GCM decryption; the
    authentication check fails unless key and iv match the ones the
    ciphertext was produced with. -/
def aesGcmDecrypt (key iv ciphertext : List Nat) : Option (List Nat) :=
  match decPair ciphertext with
  | some (k, rest) =>
      match decPair rest with
      | some (i, plaintext) =>
          if k = key ∧ i = iv then some plaintext else none
      | none => none
  | none => none

/-! ## Platform text and base64 codecs -/

/-- Modelled from the spec: the WHATWG TextEncoder UTF-8 encoding of one
    code point, used by stringToUint8Array (src/lib/crypto.ts lines 4-7). -/
def utf8EncodeChar (c : Char) : List Nat :=
  let n := c.toNat
  if n < 128 then [n]
  else if n < 2048 then [192 + n / 64, 128 + n % 64]
  else if n < 65536 then [224 + n / 4096, 128 + n / 64 % 64, 128 + n % 64]
  else [240 + n / 262144, 128 + n / 4096 % 64, 128 + n / 64 % 64, 128 + n % 64]

/-- Model of stringToUint8Array (src/lib/crypto.ts lines 4-7). -/
def stringToUint8Array (s : List Char) : List Nat :=
  s.flatMap utf8EncodeChar

/-- The UTF-8 continuation byte range. -/
def isUtf8Cont (b : Nat) : Bool := 128 ≤ b && b < 192

/-- The replacement character emitted by a non-fatal TextDecoder. -/
def replChar : Char := Char.ofNat 65533

/-- Modelled from the spec: the WHATWG TextDecoder for utf-8 in its default
    non-fatal mode; malformed input decodes to replacement characters.  The
    recursion is driven by a fuel argument instantiated with the input
    length, enough because every step consumes at least one byte. -/
def utf8DecodeFuel : Nat → List Nat → List Char
  | 0, _ => []
  | _ + 1, [] => []
  | fuel + 1, b :: rest =>
    if b < 128 then Char.ofNat b :: utf8DecodeFuel fuel rest
    else if b < 192 then replChar :: utf8DecodeFuel fuel rest
    else if b < 224 then
      match rest with
      | b2 :: r2 =>
          if isUtf8Cont b2 then
            Char.ofNat ((b - 192) * 64 + (b2 - 128)) :: utf8DecodeFuel fuel r2
          else replChar :: utf8DecodeFuel fuel (b2 :: r2)
      | [] => [replChar]
    else if b < 240 then
      match rest with
      | b2 :: b3 :: r3 =>
          if isUtf8Cont b2 && isUtf8Cont b3 then
            Char.ofNat ((b - 224) * 4096 + (b2 - 128) * 64 + (b3 - 128))
              :: utf8DecodeFuel fuel r3
          else replChar :: utf8DecodeFuel fuel (b2 :: b3 :: r3)
      | [_] => [replChar, replChar]
      | [] => [replChar]
    else
      match rest with
      | b2 :: b3 :: b4 :: r4 =>
          if isUtf8Cont b2 && isUtf8Cont b3 && isUtf8Cont b4 then
            Char.ofNat ((b - 240) * 262144 + (b2 - 128) * 4096
                + (b3 - 128) * 64 + (b4 - 128)) :: utf8DecodeFuel fuel r4
          else replChar :: utf8DecodeFuel fuel (b2 :: b3 :: b4 :: r4)
      | [_, _] => [replChar, replChar, replChar]
      | [_] => [replChar, replChar]
      | [] => [replChar]

/-- The TextDecoder model at its canonical fuel. -/
def utf8Decode (l : List Nat) : List Char := utf8DecodeFuel l.length l

/-- The base64 alphabet. -/
def b64chars : List Char :=
  "ABCDEFGHIJKLMNOPQRSTUVWXYZabcdefghijklmnopqrstuvwxyz0123456789+/".toList

/-- Indexing into the base64 alphabet. -/
def b64char (n : Nat) : Char := b64chars.getD n 'A'

/-- Model of arrayBufferToBase64 (src/lib/crypto.ts lines 9-16): the bytes
    become a binary string through String.fromCharCode and are encoded with
    the platform btoa, modelled here chunk-wise per RFC 4648. -/
def arrayBufferToBase64 : List Nat → List Char
  | [] => []
  | [a] => [b64char (a / 4), b64char (a % 4 * 16), '=', '=']
  | [a, b] =>
      [b64char (a / 4), b64char (a % 4 * 16 + b / 16), b64char (b % 16 * 4), '=']
  | a :: b :: c :: rest =>
      b64char (a / 4) :: b64char (a % 4 * 16 + b / 16)
        :: b64char (b % 16 * 4 + c / 64) :: b64char (c % 64)
        :: arrayBufferToBase64 rest

/-- Position of a character in the base64 alphabet. -/
def b64index (c : Char) : Option Nat := b64chars.findIdx? (fun x => x == c)

/-- Model of base64ToArrayBuffer (src/lib/crypto.ts lines 18-25): the
    platform atob turned back into bytes, modelled chunk-wise; the length
    must be a multiple of four and padding may occur only at the tail of the
    final quartet. -/
def base64ToArrayBuffer : List Char → Option (List Nat)
  | [] => some []
  | c1 :: c2 :: c3 :: c4 :: rest =>
      match b64index c1, b64index c2 with
      | some s1, some s2 =>
          if c3 = '=' then
            if c4 = '=' ∧ rest = [] then some [s1 * 4 + s2 / 16] else none
          else
            match b64index c3 with
            | some s3 =>
                if c4 = '=' then
                  if rest = [] then
                    some [s1 * 4 + s2 / 16, s2 % 16 * 16 + s3 / 4]
                  else none
                else
                  match b64index c4 with
                  | some s4 =>
                      match base64ToArrayBuffer rest with
                      | some bs =>
                          some ((s1 * 4 + s2 / 16) :: (s2 % 16 * 16 + s3 / 4)
                            :: (s3 % 4 * 64 + s4) :: bs)
                      | none => none
                  | none => none
            | none => none
      | _, _ => none
  | _ => none

/-! ## src/lib/crypto.ts: secret encryption -/

/-- The envelope returned by the GCM encryption helpers. -/
structure GCMEnvelope where
  encrypted : List Char
  iv : List Char
  salt : List Char
deriving DecidableEq

/-- Model of encryptSecretGCM (src/lib/crypto.ts lines 66-97).  The two
    crypto.getRandomValues draws are supplied explicitly: the fresh 16-byte
    salt and the fresh 12-byte iv. -/
def encryptSecretGCM (secret signature : List Char) (saltR ivR : List Nat) :
    Option GCMEnvelope :=
  if secret = [] ∨ signature = [] then none
  else
    let key := deriveKeyFromSignature signature saltR
    let encryptedBuffer := aesGcmEncrypt key ivR (stringToUint8Array secret)
    some ⟨arrayBufferToBase64 encryptedBuffer, arrayBufferToBase64 ivR,
          arrayBufferToBase64 saltR⟩

/-- Model of decryptSecretGCM (src/lib/crypto.ts lines 99-136). -/
def decryptSecretGCM (encryptedData iv salt signature : List Char) :
    Option (List Char) :=
  if encryptedData = [] ∨ iv = [] ∨ salt = [] ∨ signature = [] then none
  else
    match base64ToArrayBuffer encryptedData, base64ToArrayBuffer iv,
        base64ToArrayBuffer salt with
    | some encryptedBuffer, some ivBuffer, some saltBuffer =>
        let key := deriveKeyFromSignature signature saltBuffer
        match aesGcmDecrypt key ivBuffer encryptedBuffer with
        | some decryptedBuffer =>
            let decryptedString := utf8Decode decryptedBuffer
            if decryptedString = [] then none else some decryptedString
        | none => none
    | _, _, _ => none

/-- A valid plaintext secret in the sense of claim C1 and spec section 3: a
    base32 string of at least 16 characters over [A-Z2-7] with optional
    padding. -/
def isValidPlaintextSecret (s : List Char) : Bool :=
  base32RegexTest s && decide (16 ≤ s.length)

/-! ## JSON values and the platform JSON codec -/

/-- A JSON value, the domain of the stored objects the bundle logic decodes. -/
inductive JVal where
  | null : JVal
  | bool : Bool → JVal
  | num : Int → JVal
  | str : List Char → JVal
  | arr : List JVal → JVal
  | obj : List (List Char × JVal) → JVal

/-- JavaScript truthiness of a JSON value. -/
def jvTruthy : JVal → Bool
  | .null => false
  | .bool b => b
  | .num n => n != 0
  | .str s => !s.isEmpty
  | .arr _ => true
  | .obj _ => true

/-- Truthiness of a possibly absent field; an undefined field is falsy. -/
def jvTruthyOpt : Option JVal → Bool
  | none => false
  | some v => jvTruthy v

/-- Property lookup on a decoded JSON value; only objects have fields. -/
def jfield : JVal → List Char → Option JVal
  | .obj fs, k => (fs.find? (fun kv => kv.1 == k)).map (fun kv => kv.2)
  | _, _ => none

/-- A field read as a string; a missing or non-string field reads as the
    empty string, which the downstream required-parameter guards treat the
    same way the source treats the resulting failure. -/
def jfieldStr (v : JVal) (k : List Char) : List Char :=
  match jfield v k with
  | some (.str s) => s
  | _ => []

/-- Decimal digits plus terminator, the length field of the serialization
    model below. -/
def encNatS (n : Nat) : List Char := Nat.toDigits 10 n ++ [';']

mutual

/-- Modelled from the spec: JSON.stringify restricted to the JSON value
    domain.  Spec section 4.4 requires only a deterministic lossless
    serialization, modelled as a tag-length-value text; an object is written
    as its field count followed by alternating key strings and values. -/
def jsonStringify : JVal → List Char
  | .null => ['n']
  | .bool false => ['f']
  | .bool true => ['t']
  | .num n =>
      'i' :: (if n < 0 then '-' :: encNatS n.natAbs else encNatS n.natAbs)
  | .str s => 's' :: (encNatS s.length ++ s)
  | .arr xs => 'a' :: (encNatS xs.length ++ jsonStringifyList xs)
  | .obj fs => 'o' :: (encNatS fs.length ++ jsonStringifyFields fs)

/-- Serialization of an array body. -/
def jsonStringifyList : List JVal → List Char
  | [] => []
  | x :: xs => jsonStringify x ++ jsonStringifyList xs

/-- Serialization of an object body as alternating key strings and values;
    the key is written with the same text a string value uses. -/
def jsonStringifyFields : List (List Char × JVal) → List Char
  | [] => []
  | kv :: fs => 's' :: (encNatS kv.1.length ++ kv.1) ++ jsonStringify kv.2
      ++ jsonStringifyFields fs

end

/-- Reading back a decimal length field. -/
def parseNatS (s : List Char) : Option (Nat × List Char) :=
  let ds := s.takeWhile Char.isDigit
  if ds.isEmpty then none
  else
    match s.dropWhile Char.isDigit with
    | ';' :: r2 => some (ds.foldl (fun a c => 10 * a + (c.toNat - 48)) 0, r2)
    | _ => none

/-- Regrouping a parsed alternating key-value list into object fields. -/
def pairUpFields : List JVal → Option (List (List Char × JVal))
  | [] => some []
  | .str k :: v :: rest =>
      match pairUpFields rest with
      | some fs => some ((k, v) :: fs)
      | none => none
  | _ => none

/-- Modelled from the spec: JSON.parse as the partial inverse of the
    serialization model.  jsonParseN fuel n s parses n consecutive values;
    the fuel keeps the recursion structural and a linear amount in the input
    length suffices. -/
def jsonParseN : Nat → Nat → List Char → Option (List JVal × List Char)
  | 0, _, _ => none
  | _ + 1, 0, s => some ([], s)
  | fuel + 1, n + 1, s =>
      match s with
      | [] => none
      | c :: r =>
          let next := fun (v : JVal) (r2 : List Char) =>
            match jsonParseN fuel n r2 with
            | some (vs, r3) => some (v :: vs, r3)
            | none => none
          if c = 'n' then next .null r
          else if c = 'f' then next (.bool false) r
          else if c = 't' then next (.bool true) r
          else if c = 'i' then
            match r with
            | '-' :: r2 =>
                match parseNatS r2 with
                | some (m, r3) => next (.num (-(m : Int))) r3
                | none => none
            | _ =>
                match parseNatS r with
                | some (m, r3) => next (.num (m : Int)) r3
                | none => none
          else if c = 's' then
            match parseNatS r with
            | some (len, r2) =>
                if len ≤ r2.length then next (.str (r2.take len)) (r2.drop len)
                else none
            | none => none
          else if c = 'a' then
            match parseNatS r with
            | some (len, r2) =>
                match jsonParseN fuel len r2 with
                | some (xs, r3) => next (.arr xs) r3
                | none => none
            | none => none
          else if c = 'o' then
            match parseNatS r with
            | some (len, r2) =>
                match jsonParseN fuel (len * 2) r2 with
                | some (kvs, r3) =>
                    match pairUpFields kvs with
                    | some fs => next (.obj fs) r3
                    | none => none
                | none => none
            | none => none
          else none

/-- Modelled from the spec: JSON.parse over a whole string. -/
def jsonParse (s : List Char) : Option JVal :=
  match jsonParseN (2 * s.length + 2) 1 s with
  | some ([v], []) => some v
  | _ => none

/-! ## src/lib/crypto.ts: bundle encryption -/

/-- Model of encryptBundleGCM (src/lib/crypto.ts lines 150-183): the bundle
    value is serialized with JSON.stringify and then encrypted exactly like
    a secret, under fresh 16-byte salt and 12-byte iv draws. -/
def encryptBundleGCM (bundleData : JVal) (signature : List Char)
    (saltR ivR : List Nat) : Option GCMEnvelope :=
  if jvTruthy bundleData = false ∨ signature = [] then none
  else
    let key := deriveKeyFromSignature signature saltR
    let encryptedBuffer := aesGcmEncrypt key ivR
      (stringToUint8Array (jsonStringify bundleData))
    some ⟨arrayBufferToBase64 encryptedBuffer, arrayBufferToBase64 ivR,
          arrayBufferToBase64 saltR⟩

/-- The thrown message of the required-parameter guard of decryptBundleGCM. -/
def requiredBundleMsg : List Char :=
  "All parameters are required for bundle decryption".toList

/-- The catch-all thrown message of decryptBundleGCM. -/
def failedDecryptBundleMsg : List Char :=
  "Failed to decrypt bundle - wrong signature or corrupted data".toList

/-- Model of decryptBundleGCM (src/lib/crypto.ts lines 185-222), with the
    thrown error message as the failure value. -/
def decryptBundleGCM (encryptedData iv salt signature : List Char) :
    Except (List Char) JVal :=
  if encryptedData = [] ∨ iv = [] ∨ salt = [] ∨ signature = [] then
    .error requiredBundleMsg
  else
    match base64ToArrayBuffer encryptedData, base64ToArrayBuffer iv,
        base64ToArrayBuffer salt with
    | some encryptedBuffer, some ivBuffer, some saltBuffer =>
        match aesGcmDecrypt (deriveKeyFromSignature signature saltBuffer)
            ivBuffer encryptedBuffer with
        | some decryptedBuffer =>
            if utf8Decode decryptedBuffer = [] then
              .error failedDecryptBundleMsg
            else
              match jsonParse (utf8Decode decryptedBuffer) with
              | some v => .ok v
              | none => .error failedDecryptBundleMsg
        | none => .error failedDecryptBundleMsg
    | _, _, _ => .error failedDecryptBundleMsg

/-! ## src/lib/ipfs.ts: bundle retrieval -/

/-- The thrown message of the shape check after decryption. -/
def invalidAfterDecryptMsg : List Char :=
  "Invalid bundle structure after decryption".toList

/-- The thrown message of the shape check on the plaintext path. -/
def invalidPlainMsg : List Char :=
  "Invalid bundle structure retrieved from IPFS".toList

/-- The rewrapped not-found report of retrieveBundleFromIPFS. -/
def notFoundMsg (cid : List Char) : List Char :=
  "IPFS bundle not found: ".toList ++ cid
    ++ ". The content may not be pinned or may have been unpinned.".toList

/-- The rewrapped gateway-timeout report of retrieveBundleFromIPFS. -/
def gatewayTimeoutMsg : List Char :=
  ("IPFS Gateway timeout. Please try again in a moment. "
    ++ "The content may still be propagating through the network.").toList

/-- The rewrapped decryption-failure explanation of retrieveBundleFromIPFS. -/
def decryptFailureLongMsg : List Char :=
  ("Failed to decrypt bundle. This may be due to: "
    ++ "1. Wrong wallet signature "
    ++ "2. Corrupted data on IPFS "
    ++ "3. Bundle was encrypted with a different signature").toList

/-- The JavaScript String.prototype.includes substring test. -/
def containsSub (s pat : List Char) : Bool :=
  (List.range (s.length + 1)).any (fun i => pat.isPrefixOf (s.drop i))

/-- The catch-block rewrapping of retrieveBundleFromIPFS (src/lib/ipfs.ts
    lines 325-354): a message containing 404 becomes the not-found report, a
    gateway timeout its own report, a message containing the word decrypt
    the fixed decryption-failure explanation, anything else the generic
    wrapper around the original message. -/
def rewrapRetrieveError (cid m : List Char) : List Char :=
  if containsSub m "404".toList then notFoundMsg cid
  else if containsSub m "Gateway timeout".toList then gatewayTimeoutMsg
  else if containsSub m "decrypt".toList then decryptFailureLongMsg
  else "Failed to retrieve bundle from IPFS: ".toList ++ m

/-- The accounts field name. -/
def accountsKey : List Char := "accounts".toList

/-- The version field name. -/
def versionKey : List Char := "version".toList

/-- The encryptedData field name. -/
def encryptedDataKey : List Char := "encryptedData".toList

/-- The iv field name. -/
def ivKey : List Char := "iv".toList

/-- The salt field name. -/
def saltKey : List Char := "salt".toList

/-- The accounts shape check of retrieveBundleFromIPFS: with the falsiness
    and Array.isArray tests combined, the field passes exactly when it is
    present and an array. -/
def accountsOk (v : JVal) : Bool :=
  match jfield v accountsKey with
  | some (.arr _) => true
  | _ => false

/-- The strict equality test of the dispatch, rawData.version === 2. -/
def isVersion2 : Option JVal → Bool
  | some (.num n) => n == 2
  | _ => false

/-- Model of the try-block body of retrieveBundleFromIPFS (src/lib/ipfs.ts
    lines 294-324) on the fetched and parsed gateway data: dispatch on
    version 2 plus a truthy encryptedData field, decrypt on the encrypted
    path, and apply the accounts shape check on both paths. -/
def retrieveBundleData (rawData : JVal) (signature : List Char) :
    Except (List Char) JVal :=
  if isVersion2 (jfield rawData versionKey)
      && jvTruthyOpt (jfield rawData encryptedDataKey) then
    match decryptBundleGCM (jfieldStr rawData encryptedDataKey)
        (jfieldStr rawData ivKey) (jfieldStr rawData saltKey)
        signature with
    | .ok decryptedBundle =>
        if accountsOk decryptedBundle then .ok decryptedBundle
        else .error invalidAfterDecryptMsg
    | .error m => .error m
  else
    if accountsOk rawData then .ok rawData
    else .error invalidPlainMsg

/-! ## src/lib/ipfs.ts: the content store -/

/-- A pinned file of the content store. -/
structure StoreFile where
  id : List Char
  cid : List Char
  content : JVal

/-- The pin state of the content store. -/
structure StoreState where
  files : List StoreFile

/-- Modelled from the spec: the hash-derived content address of an uploaded
    object (section 6: changing one byte of the object changes the address),
    modelled with an injective serialization. -/
def contentAddress (content : JVal) : List Char := jsonStringify content

/-- The pinata upload call: pins the content under a fresh file id and
    returns its content address. -/
def pinataUpload (st : StoreState) (newId : List Char) (content : JVal) :
    StoreState × List Char :=
  (⟨st.files ++ [⟨newId, contentAddress content, content⟩]⟩,
    contentAddress content)

/-- The pinata gateway fetch: the parsed object pinned at the address. -/
def pinataFetch (st : StoreState) (cid : List Char) : Option JVal :=
  (st.files.find? (fun f => f.cid == cid)).map (fun f => f.content)

/-- Model of unpinContent (src/lib/ipfs.ts lines 155-163): delete the file
    from the store; every error is swallowed. -/
def unpinContent (st : StoreState) (fileId : List Char) : StoreState :=
  ⟨st.files.filter (fun f => f.id != fileId)⟩

/-- Model of getFileIdFromCID (src/lib/ipfs.ts lines 217-227). -/
def getFileIdFromCID (st : StoreState) (cid : List Char) : Option (List Char) :=
  (st.files.find? (fun f => f.cid == cid)).map (fun f => f.id)

/-- Model of uploadBundleToIPFS (src/lib/ipfs.ts lines 229-283): encrypt the
    bundle, pin the new version-2 envelope, then, when an old content
    address was passed and differs from the new one, unpin the old object
    before returning -- all before any on-chain pointer update by the
    caller. -/
def uploadBundleToIPFS (st : StoreState) (bundle : JVal) (signature : List Char)
    (oldCID : Option (List Char)) (saltR ivR : List Nat) (newId : List Char) :
    Option (StoreState × List Char) :=
  match encryptBundleGCM bundle signature saltR ivR with
  | none => none
  | some envelope =>
      let encryptedBundle : JVal := .obj
        [(encryptedDataKey, .str envelope.encrypted),
         (ivKey, .str envelope.iv),
         (saltKey, .str envelope.salt),
         (versionKey, .num 2)]
      let up := pinataUpload st newId encryptedBundle
      match oldCID with
      | some oc =>
          if oc ≠ up.2 then
            match getFileIdFromCID up.1 oc with
            | some oldFileId => some (unpinContent up.1 oldFileId, up.2)
            | none => some up
          else some up
      | none => some up

/-- Model of retrieveBundleFromIPFS (src/lib/ipfs.ts lines 285-355) at the
    store level: the required-parameter guards, the gateway fetch (a missing
    pin surfaces as the 404 not-found report), the version dispatch, the
    shape checks and the catch-block rewrapping. -/
def retrieveBundleFromIPFS (st : StoreState) (cid signature : List Char) :
    Except (List Char) JVal :=
  if cid = [] then .error "IPFS CID is required".toList
  else if signature = [] then
    .error "Wallet signature is required for bundle decryption".toList
  else
    match pinataFetch st cid with
    | none => .error (notFoundMsg cid)
    | some rawData =>
        match retrieveBundleData rawData signature with
        | .ok v => .ok v
        | .error m => .error (rewrapRetrieveError cid m)

/-! ## src/lib/ipfs.ts: bundle records and mutation helpers -/

/-- OTP entry record (src/lib/ipfs.ts lines 4-15). -/
structure TOTPAccount where
  id : List Char
  accountName : List Char
  encryptedSecret : List Char
  algorithm : List Char
  period : Nat
  digits : Nat
  timestamp : Nat
  iv : List Char
  salt : List Char
  logoCID : Option (List Char)
deriving DecidableEq

/-- User bundle record (src/lib/ipfs.ts lines 17-22). -/
structure UserTOTPBundle where
  accounts : List TOTPAccount
  userAddress : List Char
  lastUpdated : Nat
  version : Nat
deriving DecidableEq

/-- The TypeScript Partial of TOTPAccount, as optional per-field updates. -/
structure TOTPAccountPatch where
  id : Option (List Char)
  accountName : Option (List Char)
  encryptedSecret : Option (List Char)
  algorithm : Option (List Char)
  period : Option Nat
  digits : Option Nat
  timestamp : Option Nat
  iv : Option (List Char)
  salt : Option (List Char)
  logoCID : Option (Option (List Char))

/-- The spread merge of an account with a partial update. -/
def mergeAccount (acc : TOTPAccount) (u : TOTPAccountPatch) : TOTPAccount :=
  ⟨u.id.getD acc.id, u.accountName.getD acc.accountName,
   u.encryptedSecret.getD acc.encryptedSecret, u.algorithm.getD acc.algorithm,
   u.period.getD acc.period, u.digits.getD acc.digits,
   u.timestamp.getD acc.timestamp, u.iv.getD acc.iv, u.salt.getD acc.salt,
   u.logoCID.getD acc.logoCID⟩

/-- Model of addAccountToBundle (src/lib/ipfs.ts lines 366-372); the
    Date.now() reading is the argument now. -/
def addAccountToBundle (bundle : UserTOTPBundle) (account : TOTPAccount)
    (now : Nat) : UserTOTPBundle :=
  ⟨bundle.accounts ++ [account], bundle.userAddress, now, bundle.version⟩

/-- Model of removeAccountFromBundle (src/lib/ipfs.ts lines 374-380). -/
def removeAccountFromBundle (bundle : UserTOTPBundle) (accountId : List Char)
    (now : Nat) : UserTOTPBundle :=
  ⟨bundle.accounts.filter (fun acc => acc.id != accountId),
   bundle.userAddress, now, bundle.version⟩

/-- Model of updateAccountInBundle (src/lib/ipfs.ts lines 382-394). -/
def updateAccountInBundle (bundle : UserTOTPBundle) (accountId : List Char)
    (updates : TOTPAccountPatch) (now : Nat) : UserTOTPBundle :=
  ⟨bundle.accounts.map (fun acc =>
      if acc.id == accountId then mergeAccount acc updates else acc),
   bundle.userAddress, now, bundle.version⟩

/-! ## src/lib/googleAuthMigration.ts: the migration base32 codec -/

/-- The base32 alphabet of the migration codec. -/
def base32Chars : List Char := "ABCDEFGHIJKLMNOPQRSTUVWXYZ234567".toList

/-- Indexing into the base32 alphabet. -/
def b32char (n : Nat) : Char := base32Chars.getD n 'A'

/-- The inner while loop of bytesToBase32: emit one character for every five
    pending bits.  The accumulator is the JavaScript int32 register read
    through the unsigned shift, kept as a natural number modulo 2 to the
    32nd, with only the low bits-many bits meaningful. -/
def emitB32 (value bits : Nat) : List Char × Nat :=
  if h : 5 ≤ bits then
    let rest := emitB32 value (bits - 5)
    (b32char (value / 2 ^ (bits - 5) % 32) :: rest.1, rest.2)
  else ([], bits)
termination_by bits
decreasing_by omega

/-- The byte loop of bytesToBase32 (src/lib/googleAuthMigration.ts lines
    103-128): shift each byte into the accumulator (a JavaScript int32,
    hence the modulus), flush five bits at a time, and at the end flush the
    remaining bits left-padded into one character. -/
def b32EncCore : List Nat → Nat → Nat → List Char
  | [], value, bits =>
      if 0 < bits then [b32char (value * 2 ^ (5 - bits) % 32)] else []
  | byte :: rest, value, bits =>
      let v := (value * 256 + byte) % 4294967296
      let e := emitB32 v (bits + 8)
      e.1 ++ b32EncCore rest v e.2

/-- Model of bytesToBase32: encode, then pad with the equals sign to a
    multiple of eight characters. -/
def bytesToBase32 (bytes : List Nat) : List Char :=
  b32EncCore bytes 0 0
    ++ List.replicate ((8 - (b32EncCore bytes 0 0).length % 8) % 8) '='

/-- The character loop of base32ToBytes (src/lib/googleAuthMigration.ts
    lines 228-253): five bits per character into the int32 accumulator,
    emitting a byte whenever eight bits are pending; an unknown character
    throws. -/
def b32DecCore : List Char → Nat → Nat → Option (List Nat)
  | [], _, _ => some []
  | c :: rest, value, bits =>
      match base32Chars.findIdx? (fun x => x == c) with
      | none => none
      | some idx =>
          if 8 ≤ bits + 5 then
            match b32DecCore rest ((value * 32 + idx) % 4294967296)
                (bits + 5 - 8) with
            | some out =>
                some ((((value * 32 + idx) % 4294967296) / 2 ^ (bits + 5 - 8)
                  % 256) :: out)
            | none => none
          else b32DecCore rest ((value * 32 + idx) % 4294967296) (bits + 5)

/-- Stripping the trailing equals-sign run, the replace regex of
    base32ToBytes. -/
def stripTrailingEq (s : List Char) : List Char :=
  (s.reverse.dropWhile (fun c => c == '=')).reverse

/-- Model of base32ToBytes: strip the trailing padding, uppercase, then
    decode. -/
def base32ToBytes (base32 : List Char) : Option (List Nat) :=
  b32DecCore ((stripTrailingEq base32).map jsToUpper) 0 0

/-! ## Concrete scenario data for claims C2, C4 and C7 -/

/-- The signature of the concrete scenarios. -/
def c2Sig : List Char := "0xab".toList

/-- The initially published bundle B1. -/
def c2B1 : JVal := .obj
  [(accountsKey, .arr []),
   ("userAddress".toList, .str ['u']),
   ("lastUpdated".toList, .num 0),
   (versionKey, .num 1)]

/-- The replacement bundle B2. -/
def c2B2 : JVal := .obj
  [(accountsKey, .arr []),
   ("userAddress".toList, .str ['u']),
   ("lastUpdated".toList, .num 1),
   (versionKey, .num 1)]

/-- The concrete 16-byte salt draw of the scenarios. -/
def c2Salt : List Nat := List.replicate 16 9

/-- The concrete 12-byte iv draw of the scenarios. -/
def c2Iv : List Nat := List.replicate 12 4

/-- Publishing B1 into an empty store, with no previous content address. -/
def c2Upload1 : Option (StoreState × List Char) :=
  uploadBundleToIPFS ⟨[]⟩ c2B1 c2Sig none c2Salt c2Iv "f1".toList

/-- The store holding the published B1: what pointer P1 references. -/
def c2St0 : StoreState := (c2Upload1.getD (⟨[]⟩, [])).1

/-- The content address pointer P1 records for B1. -/
def c2Cid1 : List Char := (c2Upload1.getD (⟨[]⟩, [])).2

/-- Publishing B2 with the old content address passed along, exactly as the
    application's add-account flow does before submitting the pointer
    transaction. -/
def c2Upload2 : Option (StoreState × List Char) :=
  uploadBundleToIPFS c2St0 c2B2 c2Sig (some c2Cid1) c2Salt c2Iv "f2".toList

/-- The store state right after publishing B2, before any pointer update. -/
def c2St1 : StoreState := (c2Upload2.getD (⟨[]⟩, [])).1

/-- The content address of the published B2. -/
def c2Cid2 : List Char := (c2Upload2.getD (⟨[]⟩, [])).2

/-- The C4 counterexample payload: a stored object with version 2 and no
    encryptedData field. -/
def c4Raw : JVal := .obj
  [(versionKey, .num 2),
   (accountsKey, .arr [])]

/-- A decrypted bundle value with no accounts field, for the C7 witness. -/
def c7V0 : JVal := .obj [("foo".toList, .num 1)]

/-- The envelope produced by encrypting the accounts-less value. -/
def c7Env : GCMEnvelope :=
  (encryptBundleGCM c7V0 c2Sig c2Salt c2Iv).getD ⟨[], [], []⟩

/-- The C7 witness payload: a well-formed version-2 envelope whose decrypted
    content lacks the accounts field. -/
def c7Raw : JVal := .obj
  [(encryptedDataKey, .str c7Env.encrypted),
   (ivKey, .str c7Env.iv),
   (saltKey, .str c7Env.salt),
   (versionKey, .num 2)]

/-! ## Claim C3 -/

/-- The concrete input refuting claim C3: a 0x prefix followed by 128 hex
    characters, 130 characters in total. -/
def c3Input : List Char := '0' :: 'x' :: List.replicate 128 'a'

/-- C3 counterexample: the code accepts a string whose hex part after the 0x
    prefix has only 128 hex characters (64 bytes), which the claim, requiring
    at least 130 hex characters after the optional prefix, rejects; so the
    predicate of the claim and the implemented predicate disagree. -/
theorem c3_counterexample :
    isValidSignature c3Input = true ∧ specSignatureValid c3Input = false := by
  constructor <;> decide

/-- C3 (amended): the signature validity predicate accepts a string if and
    only if it starts with the mandatory prefix 0x followed by at least one
    hex character, contains only hex characters after the prefix, and has
    total length (prefix included) at least 130, i.e. at least 64 bytes of
    signature. -/
theorem c3_amended (s : List Char) :
    isValidSignature s = true ↔
      (s.take 2 = ['0', 'x'] ∧ s.drop 2 ≠ [] ∧
        (s.drop 2).all isHexChar = true ∧ 130 ≤ s.length) := by
  constructor
  · intro h
    rw [isValidSignature, hexRegexTest] at h
    simp only [Bool.and_eq_true, beq_iff_eq, decide_eq_true_eq] at h
    obtain ⟨⟨hA, ⟨⟨htake, hdropne⟩, hall⟩⟩, h130⟩ := h
    refine ⟨htake, ?_, hall, h130⟩
    intro hd
    rw [hd] at hdropne
    simp at hdropne
  · rintro ⟨h1, h2, h3, h4⟩
    rw [isValidSignature, hexRegexTest]
    simp only [Bool.and_eq_true, beq_iff_eq, decide_eq_true_eq]
    refine ⟨⟨?_, ⟨⟨h1, ?_⟩, h3⟩⟩, h4⟩
    · cases s with
      | nil => simp at h1
      | cons a t => simp
    · cases hd : s.drop 2 with
      | nil => exact absurd hd h2
      | cons a t => simp

/-- C3 amended witness: the amended characterization evaluated at a concrete
    well-formed 132-character signature. -/
theorem c3_amended_witness :
    isValidSignature ('0' :: 'x' :: List.replicate 130 'b') = true :=
  (c3_amended ('0' :: 'x' :: List.replicate 130 'b')).mpr
    ⟨by decide, by decide, by decide, by decide⟩

/-! ## Claim C6 -/

/-- C6 counterexample: at epoch 0 the remaining time is 30, which is not in
    the half-open range [0, 30) stated by the claim. -/
theorem c6_counterexample :
    getTimeRemaining 0 = 30 ∧ ¬ getTimeRemaining 0 < 30 := by
  constructor <;> decide

/-- C6 (amended): for every unix time t the remaining time equals
    30 - (t mod 30) with the period fixed at 30, lies in the closed range
    [1, 30] (not [0, 30)), returns 30 when t mod 30 = 0 and 1 when
    t mod 30 = 29. -/
theorem c6_amended (t : Nat) :
    getTimeRemaining t = 30 - t % 30 ∧
      1 ≤ getTimeRemaining t ∧ getTimeRemaining t ≤ 30 ∧
      (t % 30 = 0 → getTimeRemaining t = 30) ∧
      (t % 30 = 29 → getTimeRemaining t = 1) := by
  have h : t % 30 < 30 := Nat.mod_lt _ (by decide)
  unfold getTimeRemaining
  omega

/-- C6 amended witness: the boundary values at epochs 60 and 89. -/
theorem c6_amended_witness :
    getTimeRemaining 60 = 30 ∧ getTimeRemaining 89 = 1 :=
  ⟨(c6_amended 60).2.2.2.1 (by decide), (c6_amended 89).2.2.2.2 (by decide)⟩

/-! ## Claim C9 -/

/-- Every character of a string passing the anchored base32 regex lies in the
    class [A-Z2-7] or is the padding character. -/
theorem base32RegexTest_chars {t : List Char} (h : base32RegexTest t = true) :
    ∀ c ∈ t, isBase32Alpha c = true ∨ c = '=' := by
  intro c hc
  have h2 : (t.dropWhile isBase32Alpha).all (fun x => x == '=') = true := by
    cases hx : (t.dropWhile isBase32Alpha).all (fun x => x == '=') with
    | false => rw [base32RegexTest, hx] at h; simp at h
    | true => rfl
  rw [← List.takeWhile_append_dropWhile (p := isBase32Alpha) (l := t)]
    at hc
  rcases List.mem_append.mp hc with hmem | hmem
  · exact Or.inl (List.mem_takeWhile_imp hmem)
  · right
    have := List.all_eq_true.mp h2 c hmem
    simpa using this

/-- C9: the secret format predicate rejects every string whose cleaned form
    (whitespace stripped, uppercased) is shorter than 16 characters or
    contains a character outside [A-Z2-7=]; and it accepts the lowercase
    base32 string jbswy3dpehpk3pxp, which is valid after normalization. -/
theorem c9_validateSecret :
    (∀ s : List Char,
        ((cleanSecret s).length < 16 ∨
          ∃ c ∈ cleanSecret s, isBase32Alpha c = false ∧ c ≠ '=') →
        validateSecret s = false) ∧
      validateSecret "jbswy3dpehpk3pxp".toList = true := by
  constructor
  · intro s h
    rcases h with h | ⟨c, hc, hbad, hne⟩
    · have hd : decide (16 ≤ (cleanSecret s).length) = false := by
        simpa using Nat.not_le.mpr h
      simp [validateSecret, hd]
    · cases hreg : base32RegexTest (cleanSecret s) with
      | false => simp [validateSecret, hreg]
      | true =>
          rcases base32RegexTest_chars hreg c hc with hgood | heq
          · rw [hgood] at hbad; cases hbad
          · exact absurd heq hne
  · decide

/-- C9 witness: the rejection half applied to a concrete too-short string and
    a concrete string holding an invalid character. -/
theorem c9_validateSecret_witness :
    validateSecret "abc".toList = false ∧
      validateSecret "abcdefgh2345!pqrs".toList = false :=
  ⟨c9_validateSecret.1 _ (Or.inl (by decide)),
   c9_validateSecret.1 _ (Or.inr ⟨'!', by decide, by decide, by decide⟩)⟩

/-! ## Pairing, base64 and UTF-8 round trips -/

theorem takeWhile_one_replicate (n : Nat) (t : List Nat) :
    (List.replicate n 1 ++ 0 :: t).takeWhile (fun x => x == 1)
      = List.replicate n 1 := by
  induction n with
  | zero => simp [List.takeWhile]
  | succ k ih => simp [List.replicate_succ, List.takeWhile_cons, ih]

theorem encPair_split (a b : List Nat) :
    encPair a b = List.replicate a.length 1 ++ (0 :: (a ++ b)) := by
  simp [encPair]

theorem decPair_encPair (a b : List Nat) : decPair (encPair a b) = some (a, b) := by
  have h1 : (encPair a b).takeWhile (fun x => x == 1) = List.replicate a.length 1 := by
    rw [encPair_split]
    exact takeWhile_one_replicate _ _
  have h2 : (encPair a b).drop a.length = 0 :: (a ++ b) := by
    rw [encPair_split]
    have := List.drop_left (List.replicate a.length (1 : Nat)) (0 :: (a ++ b))
    rwa [List.length_replicate] at this
  simp only [decPair, h1, List.length_replicate, h2]
  simp [List.take_left, List.drop_left]

theorem encPair_injective {a b c d : List Nat} (h : encPair a b = encPair c d) :
    a = c ∧ b = d := by
  have h1 := decPair_encPair a b
  rw [h, decPair_encPair] at h1
  simp only [Option.some.injEq, Prod.mk.injEq] at h1
  exact ⟨h1.1.symm, h1.2.symm⟩

theorem encPair_ne_nil (a b : List Nat) : encPair a b ≠ [] := by
  rw [encPair_split]
  simp

theorem encPair_bytes {a b : List Nat} (ha : ∀ x ∈ a, x < 256)
    (hb : ∀ x ∈ b, x < 256) : ∀ x ∈ encPair a b, x < 256 := by
  intro x hx
  rw [encPair_split] at hx
  rcases List.mem_append.mp hx with hm | hm
  · have := List.eq_of_mem_replicate hm
    omega
  · rcases List.mem_cons.mp hm with rfl | hm2
    · omega
    · rcases List.mem_append.mp hm2 with hm3 | hm3
      · exact ha x hm3
      · exact hb x hm3

theorem b64index_b64char : ∀ s : Nat, s < 64 → b64index (b64char s) = some s := by
  decide

theorem b64char_ne_pad : ∀ s : Nat, s < 64 → b64char s ≠ '=' := by
  decide

theorem base64_roundtrip (bs : List Nat) (h : ∀ x ∈ bs, x < 256) :
    base64ToArrayBuffer (arrayBufferToBase64 bs) = some bs := by
  match bs with
  | [] => rfl
  | [a] =>
      have ha : a < 256 := h a (by simp)
      have h1 : a / 4 < 64 := by omega
      have h2 : a % 4 * 16 < 64 := by omega
      simp only [arrayBufferToBase64, base64ToArrayBuffer,
        b64index_b64char _ h1, b64index_b64char _ h2]
      simp only [Option.some.injEq, List.cons.injEq, and_true, if_pos]
      simp
      omega
  | [a, b] =>
      have ha : a < 256 := h a (by simp)
      have hb : b < 256 := h b (by simp)
      have h1 : a / 4 < 64 := by omega
      have h2 : a % 4 * 16 + b / 16 < 64 := by omega
      have h3 : b % 16 * 4 < 64 := by omega
      simp only [arrayBufferToBase64, base64ToArrayBuffer,
        b64index_b64char _ h1, b64index_b64char _ h2, b64index_b64char _ h3,
        if_neg (b64char_ne_pad _ h3)]
      simp
      omega
  | a :: b :: c :: rest =>
      have ha : a < 256 := h a (by simp)
      have hb : b < 256 := h b (by simp)
      have hc : c < 256 := h c (by simp)
      have ih := base64_roundtrip rest (fun x hx => h x (by simp [hx]))
      have h1 : a / 4 < 64 := by omega
      have h2 : a % 4 * 16 + b / 16 < 64 := by omega
      have h3 : b % 16 * 4 + c / 64 < 64 := by omega
      have h4 : c % 64 < 64 := by omega
      simp only [arrayBufferToBase64, base64ToArrayBuffer,
        b64index_b64char _ h1, b64index_b64char _ h2, b64index_b64char _ h3,
        b64index_b64char _ h4, if_neg (b64char_ne_pad _ h3),
        if_neg (b64char_ne_pad _ h4), ih]
      simp
      omega
termination_by bs.length

theorem arrayBufferToBase64_injective {x y : List Nat}
    (hx : ∀ a ∈ x, a < 256) (hy : ∀ a ∈ y, a < 256)
    (h : arrayBufferToBase64 x = arrayBufferToBase64 y) : x = y := by
  have h1 := base64_roundtrip x hx
  rw [h, base64_roundtrip y hy] at h1
  have h2 : y = x := by simpa using h1
  exact h2.symm

theorem arrayBufferToBase64_ne_nil {l : List Nat} (h : l ≠ []) :
    arrayBufferToBase64 l ≠ [] := by
  match l with
  | [] => exact absurd rfl h
  | [a] => simp [arrayBufferToBase64]
  | [a, b] => simp [arrayBufferToBase64]
  | a :: b :: c :: r => simp [arrayBufferToBase64]

theorem utf8Decode_nil : utf8Decode [] = [] := rfl

theorem utf8Decode_ascii_cons {b : Nat} (hb : b < 128) (rest : List Nat) :
    utf8Decode (b :: rest) = Char.ofNat b :: utf8Decode rest := by
  simp [utf8Decode, List.length_cons, utf8DecodeFuel, hb]

theorem utf8Decode_encode_ascii (s : List Char) (h : ∀ c ∈ s, c.toNat < 128) :
    utf8Decode (stringToUint8Array s) = s := by
  induction s with
  | nil => simp [stringToUint8Array, utf8Decode_nil]
  | cons c t ih =>
      have hc : c.toNat < 128 := h c (List.mem_cons_self _ _)
      have ht := ih (fun x hx => h x (List.mem_cons_of_mem _ hx))
      have henc : utf8EncodeChar c = [c.toNat] := by
        simp [utf8EncodeChar, hc]
      have hstep : stringToUint8Array (c :: t)
          = c.toNat :: stringToUint8Array t := by
        simp [stringToUint8Array, henc]
      rw [hstep, utf8Decode_ascii_cons hc]
      simp [ht, Char.ofNat_toNat]

theorem char_toNat_lt (c : Char) : c.toNat < 1114112 := by
  have heq : c.toNat = c.val.toNat := rfl
  rcases c.valid with h | ⟨-, h⟩
  · have h2 := UInt32.toNat_lt_of_lt (m := 55296) (by decide) h
    omega
  · have h2 := UInt32.toNat_lt_of_lt (m := 1114112) (by decide) h
    omega

theorem utf8EncodeChar_bytes (c : Char) : ∀ x ∈ utf8EncodeChar c, x < 256 := by
  have hv : c.toNat < 1114112 := char_toNat_lt c
  intro x hx
  unfold utf8EncodeChar at hx
  dsimp only at hx
  by_cases h1 : c.toNat < 128
  · rw [if_pos h1] at hx
    simp at hx
    omega
  · rw [if_neg h1] at hx
    by_cases h2 : c.toNat < 2048
    · rw [if_pos h2] at hx
      simp at hx
      rcases hx with rfl | rfl <;> omega
    · rw [if_neg h2] at hx
      by_cases h3 : c.toNat < 65536
      · rw [if_pos h3] at hx
        simp at hx
        rcases hx with rfl | rfl | rfl <;> omega
      · rw [if_neg h3] at hx
        simp at hx
        rcases hx with rfl | rfl | rfl | rfl <;> omega

theorem stringToUint8Array_bytes (s : List Char) :
    ∀ x ∈ stringToUint8Array s, x < 256 := by
  intro x hx
  unfold stringToUint8Array at hx
  rcases List.mem_flatMap.mp hx with ⟨c, -, hxc⟩
  exact utf8EncodeChar_bytes c x hxc

theorem hexVal_le (c : Char) : hexVal c ≤ 15 := by
  unfold hexVal
  split
  · rename_i h
    simp at h
    omega
  · split
    · rename_i h
      simp at h
      omega
    · split
      · rename_i h
        simp at h
        omega
      · omega

theorem hexPairByte_lt (c1 c2 : Char) : hexPairByte c1 c2 < 256 := by
  have h1 := hexVal_le c1
  have h2 := hexVal_le c2
  unfold hexPairByte
  split
  · split <;> omega
  · omega

theorem hexPairs_bytes : ∀ l : List Char, ∀ x ∈ hexPairs l, x < 256 := by
  intro l
  match l with
  | [] => intro x hx; simp [hexPairs] at hx
  | [c] => intro x hx; simp [hexPairs] at hx
  | c1 :: c2 :: rest =>
      intro x hx
      rw [hexPairs] at hx
      rcases List.mem_cons.mp hx with rfl | hm
      · exact hexPairByte_lt c1 c2
      · exact hexPairs_bytes rest x hm

theorem deriveKey_bytes (sig : List Char) {salt : List Nat}
    (hs : ∀ x ∈ salt, x < 256) :
    ∀ x ∈ deriveKeyFromSignature sig salt, x < 256 := by
  unfold deriveKeyFromSignature pbkdf2Sha256 sha256
  exact encPair_bytes (fun x hx => hexPairs_bytes _ x hx) hs

theorem aesGcmDecrypt_encrypt (key iv pt : List Nat) :
    aesGcmDecrypt key iv (aesGcmEncrypt key iv pt) = some pt := by
  unfold aesGcmDecrypt aesGcmEncrypt
  rw [decPair_encPair]
  simp only [decPair_encPair]
  simp

/-! ## Claim C1 -/

theorem validSecret_ascii {s : List Char} (h : isValidPlaintextSecret s = true) :
    ∀ c ∈ s, c.toNat < 128 := by
  intro c hc
  have h2 := h
  simp only [isValidPlaintextSecret, Bool.and_eq_true, decide_eq_true_eq] at h2
  rcases base32RegexTest_chars h2.1 c hc with hA | rfl
  · simp only [isBase32Alpha, Bool.or_eq_true, Bool.and_eq_true,
      decide_eq_true_eq] at hA
    omega
  · decide

/-- C1: for every valid plaintext secret (base32, at least 16 characters) and
    every valid signature, with the fresh 16-byte salt and 12-byte iv draws
    supplied to the encryption call, decrypting the produced envelope using
    the same signature and the envelope's own iv and salt returns exactly the
    original secret. -/
theorem c1_encrypt_decrypt_roundtrip
    (s sig : List Char) (saltR ivR : List Nat)
    (hs : isValidPlaintextSecret s = true)
    (hsig : isValidSignature sig = true)
    (hsaltL : saltR.length = 16) (hsaltB : ∀ x ∈ saltR, x < 256)
    (hivL : ivR.length = 12) (hivB : ∀ x ∈ ivR, x < 256) :
    (encryptSecretGCM s sig saltR ivR).bind
        (fun r => decryptSecretGCM r.encrypted r.iv r.salt sig) = some s := by
  have hlen : 16 ≤ s.length := by
    simp only [isValidPlaintextSecret, Bool.and_eq_true, decide_eq_true_eq] at hs
    exact hs.2
  have hsne : s ≠ [] := by
    intro h0
    rw [h0] at hlen
    simp at hlen
  have hsigne : sig ≠ [] := by
    intro h0
    rw [h0] at hsig
    simp [isValidSignature] at hsig
  have hasc := validSecret_ascii hs
  have hptB : ∀ x ∈ stringToUint8Array s, x < 256 := stringToUint8Array_bytes s
  have hkeyB : ∀ x ∈ deriveKeyFromSignature sig saltR, x < 256 :=
    deriveKey_bytes sig hsaltB
  have hctB : ∀ x ∈ aesGcmEncrypt (deriveKeyFromSignature sig saltR) ivR
      (stringToUint8Array s), x < 256 := by
    unfold aesGcmEncrypt
    exact encPair_bytes hkeyB (encPair_bytes hivB hptB)
  have henc : encryptSecretGCM s sig saltR ivR = some
      ⟨arrayBufferToBase64 (aesGcmEncrypt (deriveKeyFromSignature sig saltR) ivR
          (stringToUint8Array s)),
        arrayBufferToBase64 ivR, arrayBufferToBase64 saltR⟩ := by
    unfold encryptSecretGCM
    rw [if_neg (by simp [hsne, hsigne])]
  rw [henc]
  have hctne : arrayBufferToBase64 (aesGcmEncrypt
      (deriveKeyFromSignature sig saltR) ivR (stringToUint8Array s)) ≠ [] :=
    arrayBufferToBase64_ne_nil (by unfold aesGcmEncrypt; exact encPair_ne_nil _ _)
  have hivne : ivR ≠ [] := by
    intro h0
    rw [h0] at hivL
    simp at hivL
  have hsaltne : saltR ≠ [] := by
    intro h0
    rw [h0] at hsaltL
    simp at hsaltL
  show decryptSecretGCM _ _ _ _ = some s
  unfold decryptSecretGCM
  rw [if_neg (by
    push_neg
    exact ⟨hctne, arrayBufferToBase64_ne_nil hivne,
      arrayBufferToBase64_ne_nil hsaltne, hsigne⟩)]
  rw [base64_roundtrip _ hctB, base64_roundtrip ivR hivB,
    base64_roundtrip saltR hsaltB]
  dsimp only
  rw [aesGcmDecrypt_encrypt]
  dsimp only
  rw [utf8Decode_encode_ascii s hasc]
  rw [if_neg hsne]

/-- C1 witness: the round trip applied at a concrete valid secret, a concrete
    valid 132-character signature and concrete byte draws. -/
theorem c1_witness :
    (encryptSecretGCM "JBSWY3DPEHPK3PXP".toList
        ('0' :: 'x' :: List.replicate 130 'a')
        (List.replicate 16 5) (List.replicate 12 7)).bind
      (fun r => decryptSecretGCM r.encrypted r.iv r.salt
        ('0' :: 'x' :: List.replicate 130 'a'))
      = some "JBSWY3DPEHPK3PXP".toList :=
  c1_encrypt_decrypt_roundtrip _ _ _ _ (by decide) (by decide) (by decide)
    (by decide) (by decide) (by decide)

/-! ## Claim C5 -/

theorem freshEnvelopeParts (sig : List Char) (pt : List Nat)
    {salt1 iv1 salt2 iv2 : List Nat}
    (hptB : ∀ x ∈ pt, x < 256)
    (h1B : ∀ x ∈ salt1, x < 256) (h2B : ∀ x ∈ salt2, x < 256)
    (h3B : ∀ x ∈ iv1, x < 256) (h4B : ∀ x ∈ iv2, x < 256)
    (hsalt : salt1 ≠ salt2) (hiv : iv1 ≠ iv2) :
    arrayBufferToBase64 iv1 ≠ arrayBufferToBase64 iv2 ∧
    arrayBufferToBase64 salt1 ≠ arrayBufferToBase64 salt2 ∧
    arrayBufferToBase64
        (aesGcmEncrypt (deriveKeyFromSignature sig salt1) iv1 pt)
      ≠ arrayBufferToBase64
        (aesGcmEncrypt (deriveKeyFromSignature sig salt2) iv2 pt) := by
  have hk1 := deriveKey_bytes sig h1B
  have hk2 := deriveKey_bytes sig h2B
  have hct1B : ∀ x ∈ aesGcmEncrypt (deriveKeyFromSignature sig salt1) iv1 pt,
      x < 256 := by
    unfold aesGcmEncrypt
    exact encPair_bytes hk1 (encPair_bytes h3B hptB)
  have hct2B : ∀ x ∈ aesGcmEncrypt (deriveKeyFromSignature sig salt2) iv2 pt,
      x < 256 := by
    unfold aesGcmEncrypt
    exact encPair_bytes hk2 (encPair_bytes h4B hptB)
  refine ⟨?_, ?_, ?_⟩
  · intro heq
    exact hiv (arrayBufferToBase64_injective h3B h4B heq)
  · intro heq
    exact hsalt (arrayBufferToBase64_injective h1B h2B heq)
  · intro heq
    have hct := arrayBufferToBase64_injective hct1B hct2B heq
    unfold aesGcmEncrypt at hct
    have h5 := encPair_injective hct
    have h6 := encPair_injective h5.2
    exact hiv h6.1

/-- C5: on both encryption entry points -- encryptSecretGCM and
    encryptBundleGCM -- two runs with the same plaintext and signature but
    distinct fresh 16-byte salt draws and distinct fresh 12-byte iv draws
    produce envelopes with different iv, different salt and different
    ciphertext: each call passes its fresh randomness through unchanged and
    never reuses a previous draw, and the ciphertext varies with the iv. -/
theorem c5_encrypt_key_nonreuse
    (s sig : List Char) (v : JVal) (salt1 iv1 salt2 iv2 : List Nat)
    (hs : s ≠ []) (hsig : sig ≠ []) (hv : jvTruthy v = true)
    (_h1L : salt1.length = 16) (h1B : ∀ x ∈ salt1, x < 256)
    (_h2L : salt2.length = 16) (h2B : ∀ x ∈ salt2, x < 256)
    (_h3L : iv1.length = 12) (h3B : ∀ x ∈ iv1, x < 256)
    (_h4L : iv2.length = 12) (h4B : ∀ x ∈ iv2, x < 256)
    (hsalt : salt1 ≠ salt2) (hiv : iv1 ≠ iv2) :
    (∃ r1 r2, encryptSecretGCM s sig salt1 iv1 = some r1 ∧
      encryptSecretGCM s sig salt2 iv2 = some r2 ∧
      r1.iv ≠ r2.iv ∧ r1.salt ≠ r2.salt ∧ r1.encrypted ≠ r2.encrypted) ∧
    (∃ q1 q2, encryptBundleGCM v sig salt1 iv1 = some q1 ∧
      encryptBundleGCM v sig salt2 iv2 = some q2 ∧
      q1.iv ≠ q2.iv ∧ q1.salt ≠ q2.salt ∧ q1.encrypted ≠ q2.encrypted) := by
  constructor
  · have hparts := freshEnvelopeParts sig (stringToUint8Array s)
      (stringToUint8Array_bytes s) h1B h2B h3B h4B hsalt hiv
    have henc1 : encryptSecretGCM s sig salt1 iv1 = some
        ⟨arrayBufferToBase64 (aesGcmEncrypt (deriveKeyFromSignature sig salt1)
            iv1 (stringToUint8Array s)),
          arrayBufferToBase64 iv1, arrayBufferToBase64 salt1⟩ := by
      unfold encryptSecretGCM
      rw [if_neg (by simp [hs, hsig])]
    have henc2 : encryptSecretGCM s sig salt2 iv2 = some
        ⟨arrayBufferToBase64 (aesGcmEncrypt (deriveKeyFromSignature sig salt2)
            iv2 (stringToUint8Array s)),
          arrayBufferToBase64 iv2, arrayBufferToBase64 salt2⟩ := by
      unfold encryptSecretGCM
      rw [if_neg (by simp [hs, hsig])]
    exact ⟨_, _, henc1, henc2, hparts.1, hparts.2.1, hparts.2.2⟩
  · have hparts := freshEnvelopeParts sig
      (stringToUint8Array (jsonStringify v))
      (stringToUint8Array_bytes (jsonStringify v)) h1B h2B h3B h4B hsalt hiv
    have hguard : ¬ (jvTruthy v = false ∨ sig = []) := by
      simp [hv, hsig]
    have henc1 : encryptBundleGCM v sig salt1 iv1 = some
        ⟨arrayBufferToBase64 (aesGcmEncrypt (deriveKeyFromSignature sig salt1)
            iv1 (stringToUint8Array (jsonStringify v))),
          arrayBufferToBase64 iv1, arrayBufferToBase64 salt1⟩ := by
      unfold encryptBundleGCM
      rw [if_neg hguard]
    have henc2 : encryptBundleGCM v sig salt2 iv2 = some
        ⟨arrayBufferToBase64 (aesGcmEncrypt (deriveKeyFromSignature sig salt2)
            iv2 (stringToUint8Array (jsonStringify v))),
          arrayBufferToBase64 iv2, arrayBufferToBase64 salt2⟩ := by
      unfold encryptBundleGCM
      rw [if_neg hguard]
    exact ⟨_, _, henc1, henc2, hparts.1, hparts.2.1, hparts.2.2⟩

/-- C5 witness: the freshness statement applied at a concrete secret, a
    concrete bundle value, a concrete signature and two concrete distinct
    draws, covering both encryption entry points. -/
theorem c5_witness :
    (∃ r1 r2, encryptSecretGCM "JBSWY3DPEHPK3PXP".toList "0xab".toList
        (List.replicate 16 1) (List.replicate 12 3) = some r1 ∧
      encryptSecretGCM "JBSWY3DPEHPK3PXP".toList "0xab".toList
        (List.replicate 16 2) (List.replicate 12 4) = some r2 ∧
      r1.iv ≠ r2.iv ∧ r1.salt ≠ r2.salt ∧ r1.encrypted ≠ r2.encrypted) ∧
    (∃ q1 q2, encryptBundleGCM (JVal.obj []) "0xab".toList
        (List.replicate 16 1) (List.replicate 12 3) = some q1 ∧
      encryptBundleGCM (JVal.obj []) "0xab".toList
        (List.replicate 16 2) (List.replicate 12 4) = some q2 ∧
      q1.iv ≠ q2.iv ∧ q1.salt ≠ q2.salt ∧ q1.encrypted ≠ q2.encrypted) :=
  c5_encrypt_key_nonreuse _ _ (JVal.obj []) _ _ _ _ (by decide) (by decide)
    (by decide) (by decide) (by decide) (by decide) (by decide) (by decide)
    (by decide) (by decide) (by decide) (by decide) (by decide)

/-! ## Claim C2 -/

/-- C2 (evidence of the code bug): with pointer P1 recording the content
    address of the published bundle B1, a fetch through P1 first succeeds
    and decrypts back to B1; publishing the new bundle B2 succeeds and
    returns a fresh address; but because uploadBundleToIPFS unpins the old
    object as part of publishing -- before the caller ever submits the
    pointer-update transaction -- a subsequent fetch through the unchanged
    pointer P1 fails with the not-found report instead of yielding B1.  The
    claim (and spec section 4.6) requires the old object to stay fetchable
    until the pointer update is confirmed. -/
theorem c2_unpin_before_pointer_update :
    retrieveBundleFromIPFS c2St0 c2Cid1 c2Sig = .ok c2B1 ∧
    uploadBundleToIPFS c2St0 c2B2 c2Sig (some c2Cid1) c2Salt c2Iv "f2".toList
      = some (c2St1, c2Cid2) ∧
    c2Cid2 ≠ c2Cid1 ∧
    retrieveBundleFromIPFS c2St1 c2Cid1 c2Sig = .error (notFoundMsg c2Cid1) ∧
    retrieveBundleFromIPFS c2St1 c2Cid2 c2Sig = .ok c2B2 :=
  ⟨rfl, rfl, by decide, rfl, rfl⟩

/-! ## Claim C4 -/

/-- C4 counterexample: a stored object with version 2 but no encryptedData
    field is accepted by the dispatch as an unencrypted bundle, even though
    attempting decryption on its (absent) fields would fail; so version 2
    does not always take the decryption path first, contrary to the claim. -/
theorem c4_counterexample :
    retrieveBundleData c4Raw c2Sig = .ok c4Raw ∧
    decryptBundleGCM (jfieldStr c4Raw encryptedDataKey)
        (jfieldStr c4Raw ivKey) (jfieldStr c4Raw saltKey) c2Sig
      = .error requiredBundleMsg :=
  ⟨rfl, rfl⟩

/-- C4 (amended): retrieval dispatches on the version field and the
    truthiness of the encryptedData field together.  A stored object whose
    version is absent or 1 is treated as an unencrypted bundle -- the result
    does not depend on the signature, and a well-shaped object is returned
    as is.  An object with version 2 and a truthy encryptedData field always
    attempts decryption first: a decryption failure becomes the result and
    the plaintext path is never taken.  An object with version 2 but no (or
    falsy) encryptedData falls through to the unencrypted path. -/
theorem c4_amended (raw : JVal) (sig sig2 : List Char) :
    ((jfield raw versionKey = none ∨
        jfield raw versionKey = some (.num 1)) →
      retrieveBundleData raw sig = retrieveBundleData raw sig2 ∧
      (accountsOk raw = true → retrieveBundleData raw sig = .ok raw) ∧
      (accountsOk raw = false →
        retrieveBundleData raw sig = .error invalidPlainMsg)) ∧
    (isVersion2 (jfield raw versionKey) = true →
      jvTruthyOpt (jfield raw encryptedDataKey) = true →
      ∀ m, decryptBundleGCM (jfieldStr raw encryptedDataKey)
          (jfieldStr raw ivKey) (jfieldStr raw saltKey) sig
          = .error m →
        retrieveBundleData raw sig = .error m) ∧
    (isVersion2 (jfield raw versionKey) = true →
      jvTruthyOpt (jfield raw encryptedDataKey) = false →
      retrieveBundleData raw sig = retrieveBundleData raw sig2 ∧
      (accountsOk raw = true → retrieveBundleData raw sig = .ok raw)) := by
  have hplain : ∀ s2 : List Char,
      (isVersion2 (jfield raw versionKey)
        && jvTruthyOpt (jfield raw encryptedDataKey)) = false →
      retrieveBundleData raw s2 =
        if accountsOk raw = true then .ok raw else .error invalidPlainMsg := by
    intro s2 hcond
    unfold retrieveBundleData
    rw [hcond]
    simp
  refine ⟨?_, ?_, ?_⟩
  · intro hver
    have hv2 : isVersion2 (jfield raw versionKey) = false := by
      rcases hver with h | h <;> rw [h] <;> rfl
    have hcond : (isVersion2 (jfield raw versionKey)
        && jvTruthyOpt (jfield raw encryptedDataKey)) = false := by
      rw [hv2]
      simp
    refine ⟨by rw [hplain sig hcond, hplain sig2 hcond], ?_, ?_⟩
    · intro hacc
      rw [hplain sig hcond, hacc]
      simp
    · intro hacc
      rw [hplain sig hcond, hacc]
      simp
  · intro hv2 htru m hdec
    unfold retrieveBundleData
    rw [hv2, htru]
    simp only [Bool.and_self, if_pos]
    rw [hdec]
  · intro hv2 htru
    have hcond : (isVersion2 (jfield raw versionKey)
        && jvTruthyOpt (jfield raw encryptedDataKey)) = false := by
      rw [htru]
      simp
    refine ⟨by rw [hplain sig hcond, hplain sig2 hcond], ?_⟩
    intro hacc
    rw [hplain sig hcond, hacc]
    simp

/-- C4 amended witness: a version-1 stored object with a well-shaped
    accounts list is returned as is, and the C4 counterexample payload
    (version 2, no encryptedData) also lands on the unencrypted path. -/
theorem c4_amended_witness :
    retrieveBundleData (JVal.obj [(versionKey, .num 1),
        (accountsKey, .arr [])]) c2Sig
      = .ok (JVal.obj [(versionKey, .num 1),
        (accountsKey, .arr [])]) ∧
    retrieveBundleData c4Raw c2Sig = .ok c4Raw :=
  ⟨((c4_amended (JVal.obj [(versionKey, .num 1), (accountsKey, .arr [])])
      c2Sig c2Sig).1 (Or.inr rfl)).2.1 rfl,
   ((c4_amended c4Raw c2Sig c2Sig).2.2 rfl rfl).2 rfl⟩

/-! ## Claim C7 -/

/-- C7: on both retrieval paths the decode fails with the malformed-bundle
    structure error whenever the accounts (entries) field is missing or not
    a list: the unencrypted path reports the retrieved-structure error, the
    version-2 path reports the after-decryption structure error whenever
    decryption itself succeeded, and no retrieval result is ever an ok
    bundle whose accounts field is missing or not a list -- a malformed
    payload never comes back as a silently empty bundle. -/
theorem c7_malformed_bundle (raw : JVal) (sig : List Char) :
    ((isVersion2 (jfield raw versionKey)
        && jvTruthyOpt (jfield raw encryptedDataKey)) = false →
      accountsOk raw = false →
      retrieveBundleData raw sig = .error invalidPlainMsg) ∧
    (∀ v, isVersion2 (jfield raw versionKey) = true →
      jvTruthyOpt (jfield raw encryptedDataKey) = true →
      decryptBundleGCM (jfieldStr raw encryptedDataKey)
          (jfieldStr raw ivKey) (jfieldStr raw saltKey) sig
        = .ok v →
      accountsOk v = false →
      retrieveBundleData raw sig = .error invalidAfterDecryptMsg) ∧
    (∀ b, retrieveBundleData raw sig = .ok b → accountsOk b = true) := by
  refine ⟨?_, ?_, ?_⟩
  · intro hcond hacc
    unfold retrieveBundleData
    rw [hcond]
    simp [hacc]
  · intro v hv2 htru hdec hacc
    unfold retrieveBundleData
    rw [hv2, htru]
    simp only [Bool.and_self, if_pos]
    rw [hdec]
    simp [hacc]
  · intro b hb
    unfold retrieveBundleData at hb
    split at hb
    · split at hb
      next v hdec =>
        split at hb
        next hacc =>
          injection hb with h
          subst h
          assumption
        next => cases hb
      next => cases hb
    · split at hb
      next hacc =>
        injection hb with h
        subst h
        assumption
      next => cases hb

/-- C7 witness: the structure failure evaluated on the unencrypted
    counterpart and on a concrete well-formed version-2 envelope whose
    decrypted content lacks the accounts field. -/
theorem c7_malformed_bundle_witness :
    retrieveBundleData (JVal.obj [("foo".toList, .num 1)]) c2Sig
      = .error invalidPlainMsg ∧
    retrieveBundleData c7Raw c2Sig = .error invalidAfterDecryptMsg :=
  ⟨(c7_malformed_bundle _ c2Sig).1 rfl rfl,
   (c7_malformed_bundle c7Raw c2Sig).2.1 c7V0 rfl rfl (by rfl) rfl⟩

/-! ## Claim C8 -/

/-- C8: the bundle mutations preserve the bundle invariants.  Adding an
    account appends it at the end, leaving the order of existing entries
    unchanged; removing an account keeps exactly the entries with a
    different id, in their original relative order (a sublist of the
    original); and add, remove and update all leave the bundle's
    userAddress (owner identity) and schema version unchanged. -/
theorem c8_bundle_mutations (b : UserTOTPBundle) (a : TOTPAccount)
    (i : List Char) (u : TOTPAccountPatch) (now : Nat) :
    (addAccountToBundle b a now).accounts = b.accounts ++ [a] ∧
    (addAccountToBundle b a now).userAddress = b.userAddress ∧
    (addAccountToBundle b a now).version = b.version ∧
    (removeAccountFromBundle b i now).accounts
      = b.accounts.filter (fun acc => acc.id != i) ∧
    List.Sublist (removeAccountFromBundle b i now).accounts b.accounts ∧
    (removeAccountFromBundle b i now).userAddress = b.userAddress ∧
    (removeAccountFromBundle b i now).version = b.version ∧
    (updateAccountInBundle b i u now).userAddress = b.userAddress ∧
    (updateAccountInBundle b i u now).version = b.version := by
  refine ⟨rfl, rfl, rfl, rfl, ?_, rfl, rfl, rfl, rfl⟩
  exact List.filter_sublist _

/-! ## Claim C10: the migration base32 codec round trip -/

theorem emitB32_lt {value bits : Nat} (h : bits < 5) :
    emitB32 value bits = ([], bits) := by
  unfold emitB32
  rw [dif_neg (by omega)]

theorem emitB32_ge {value bits : Nat} (h : 5 ≤ bits) :
    emitB32 value bits
      = (b32char (value / 2 ^ (bits - 5) % 32) :: (emitB32 value (bits - 5)).1,
         (emitB32 value (bits - 5)).2) := by
  conv_lhs => rw [emitB32]
  rw [dif_pos h]

theorem emitB32_8 (v : Nat) : emitB32 v 8 = ([b32char (v / 8 % 32)], 3) := by
  rw [emitB32_ge (by omega), emitB32_lt (by omega)]
  norm_num

theorem emitB32_9 (v : Nat) : emitB32 v 9 = ([b32char (v / 16 % 32)], 4) := by
  rw [emitB32_ge (by omega), emitB32_lt (by omega)]
  norm_num

theorem emitB32_10 (v : Nat) :
    emitB32 v 10 = ([b32char (v / 32 % 32), b32char (v % 32)], 0) := by
  rw [emitB32_ge (by omega), emitB32_ge (by omega), emitB32_lt (by omega)]
  norm_num

theorem emitB32_11 (v : Nat) :
    emitB32 v 11 = ([b32char (v / 64 % 32), b32char (v / 2 % 32)], 1) := by
  rw [emitB32_ge (by omega), emitB32_ge (by omega), emitB32_lt (by omega)]
  norm_num

theorem emitB32_12 (v : Nat) :
    emitB32 v 12 = ([b32char (v / 128 % 32), b32char (v / 4 % 32)], 2) := by
  rw [emitB32_ge (by omega), emitB32_ge (by omega), emitB32_lt (by omega)]
  norm_num

theorem b32_findIdx : ∀ n : Nat, n < 32 →
    base32Chars.findIdx? (fun x => x == b32char n) = some n := by
  decide

theorem b32DecCore_cons_ge {c : Char} {idx : Nat} (rest : List Char)
    (value bits : Nat)
    (hidx : base32Chars.findIdx? (fun x => x == c) = some idx)
    (h8 : 8 ≤ bits + 5) :
    b32DecCore (c :: rest) value bits
      = match b32DecCore rest ((value * 32 + idx) % 4294967296)
            (bits + 5 - 8) with
        | some out => some ((((value * 32 + idx) % 4294967296)
            / 2 ^ (bits + 5 - 8) % 256) :: out)
        | none => none := by
  rw [b32DecCore, hidx]
  simp only [if_pos h8]

theorem b32DecCore_cons_lt {c : Char} {idx : Nat} (rest : List Char)
    (value bits : Nat)
    (hidx : base32Chars.findIdx? (fun x => x == c) = some idx)
    (h8 : bits + 5 < 8) :
    b32DecCore (c :: rest) value bits
      = b32DecCore rest ((value * 32 + idx) % 4294967296) (bits + 5) := by
  rw [b32DecCore, hidx]
  simp only [if_neg (by omega : ¬ 8 ≤ bits + 5)]

theorem b32_core_roundtrip (rest : List Nat) :
    ∀ ve be vd bd : Nat, (∀ x ∈ rest, x < 256) →
    be < 5 → (be = 0 → bd = 0) → (0 < be → bd + be = 8) →
    b32DecCore (b32EncCore rest ve be) vd bd
      = some ((if 0 < be then [vd % 2 ^ bd * 2 ^ be + ve % 2 ^ be] else [])
          ++ rest) := by
  induction rest with
  | nil =>
      intro ve be vd bd hmem hbe h0 hpos
      interval_cases be
      · have hbd : bd = 0 := h0 rfl
        subst hbd
        simp [b32EncCore, b32DecCore]
      · have hbd : bd = 7 := by have := hpos (by omega); omega
        subst hbd
        have henc : b32EncCore [] ve 1 = [b32char (ve * 16 % 32)] := by
          simp [b32EncCore]
        rw [henc, b32DecCore_cons_ge [] vd 7 (b32_findIdx _ (by omega)) (by omega)]
        simp only [b32DecCore]
        simp
        omega
      · have hbd : bd = 6 := by have := hpos (by omega); omega
        subst hbd
        have henc : b32EncCore [] ve 2 = [b32char (ve * 8 % 32)] := by
          simp [b32EncCore]
        rw [henc, b32DecCore_cons_ge [] vd 6 (b32_findIdx _ (by omega)) (by omega)]
        simp only [b32DecCore]
        simp
        omega
      · have hbd : bd = 5 := by have := hpos (by omega); omega
        subst hbd
        have henc : b32EncCore [] ve 3 = [b32char (ve * 4 % 32)] := by
          simp [b32EncCore]
        rw [henc, b32DecCore_cons_ge [] vd 5 (b32_findIdx _ (by omega)) (by omega)]
        simp only [b32DecCore]
        simp
        omega
      · have hbd : bd = 4 := by have := hpos (by omega); omega
        subst hbd
        have henc : b32EncCore [] ve 4 = [b32char (ve * 2 % 32)] := by
          simp [b32EncCore]
        rw [henc, b32DecCore_cons_ge [] vd 4 (b32_findIdx _ (by omega)) (by omega)]
        simp only [b32DecCore]
        simp
        omega
  | cons b rest2 ih =>
      intro ve be vd bd hmem hbe h0 hpos
      have hb : b < 256 := hmem b (by simp)
      have hmem2 : ∀ x ∈ rest2, x < 256 := fun x hx => hmem x (by simp [hx])
      interval_cases be
      · -- be = 0: one character emitted, no byte completed at the decoder
        have hbd : bd = 0 := h0 rfl
        subst hbd
        have henc : b32EncCore (b :: rest2) ve 0
            = b32char ((ve * 256 + b) % 4294967296 / 8 % 32)
              :: b32EncCore rest2 ((ve * 256 + b) % 4294967296) 3 := by
          simp only [b32EncCore]
          rw [show (0 : Nat) + 8 = 8 from rfl, emitB32_8]
          rfl
        rw [henc,
          b32DecCore_cons_lt _ vd 0 (b32_findIdx _ (by omega)) (by omega),
          ih _ 3 _ 5 hmem2 (by omega) (by omega) (by omega)]
        simp
        omega
      · -- be = 1: one character emitted, one byte completed
        have hbd : bd = 7 := by have := hpos (by omega); omega
        subst hbd
        have henc : b32EncCore (b :: rest2) ve 1
            = b32char ((ve * 256 + b) % 4294967296 / 16 % 32)
              :: b32EncCore rest2 ((ve * 256 + b) % 4294967296) 4 := by
          simp only [b32EncCore]
          rw [show (1 : Nat) + 8 = 9 from rfl, emitB32_9]
          rfl
        rw [henc,
          b32DecCore_cons_ge _ vd 7 (b32_findIdx _ (by omega)) (by omega),
          ih _ 4 _ 4 hmem2 (by omega) (by omega) (by omega)]
        simp
        constructor
        · omega
        · omega
      · -- be = 2: two characters emitted, two bytes completed
        have hbd : bd = 6 := by have := hpos (by omega); omega
        subst hbd
        have henc : b32EncCore (b :: rest2) ve 2
            = b32char ((ve * 256 + b) % 4294967296 / 32 % 32)
              :: b32char ((ve * 256 + b) % 4294967296 % 32)
              :: b32EncCore rest2 ((ve * 256 + b) % 4294967296) 0 := by
          simp only [b32EncCore]
          rw [show (2 : Nat) + 8 = 10 from rfl, emitB32_10]
          rfl
        rw [henc,
          b32DecCore_cons_ge _ vd 6 (b32_findIdx _ (by omega)) (by omega),
          b32DecCore_cons_ge _ _ 3 (b32_findIdx _ (by omega)) (by omega),
          ih _ 0 _ 0 hmem2 (by omega) (by omega) (by omega)]
        simp
        constructor
        · omega
        · omega
      · -- be = 3: two characters emitted, one byte completed
        have hbd : bd = 5 := by have := hpos (by omega); omega
        subst hbd
        have henc : b32EncCore (b :: rest2) ve 3
            = b32char ((ve * 256 + b) % 4294967296 / 64 % 32)
              :: b32char ((ve * 256 + b) % 4294967296 / 2 % 32)
              :: b32EncCore rest2 ((ve * 256 + b) % 4294967296) 1 := by
          simp only [b32EncCore]
          rw [show (3 : Nat) + 8 = 11 from rfl, emitB32_11]
          rfl
        rw [henc,
          b32DecCore_cons_ge _ vd 5 (b32_findIdx _ (by omega)) (by omega),
          b32DecCore_cons_lt _ _ 2 (b32_findIdx _ (by omega)) (by omega),
          ih _ 1 _ 7 hmem2 (by omega) (by omega) (by omega)]
        simp
        constructor
        · omega
        · omega
      · -- be = 4: two characters emitted, one byte completed
        have hbd : bd = 4 := by have := hpos (by omega); omega
        subst hbd
        have henc : b32EncCore (b :: rest2) ve 4
            = b32char ((ve * 256 + b) % 4294967296 / 128 % 32)
              :: b32char ((ve * 256 + b) % 4294967296 / 4 % 32)
              :: b32EncCore rest2 ((ve * 256 + b) % 4294967296) 2 := by
          simp only [b32EncCore]
          rw [show (4 : Nat) + 8 = 12 from rfl, emitB32_12]
          rfl
        rw [henc,
          b32DecCore_cons_ge _ vd 4 (b32_findIdx _ (by omega)) (by omega),
          b32DecCore_cons_lt _ _ 1 (b32_findIdx _ (by omega)) (by omega),
          ih _ 2 _ 6 hmem2 (by omega) (by omega) (by omega)]
        simp
        constructor
        · omega
        · omega

theorem emitB32_chars (value : Nat) :
    ∀ bits, ∀ c ∈ (emitB32 value bits).1, ∃ n, n < 32 ∧ c = b32char n := by
  intro bits
  induction bits using Nat.strong_induction_on with
  | _ bits ih =>
      by_cases h : 5 ≤ bits
      · rw [emitB32_ge h]
        intro c hc
        rcases List.mem_cons.mp hc with rfl | hc2
        · exact ⟨_, by omega, rfl⟩
        · exact ih (bits - 5) (by omega) c hc2
      · rw [emitB32_lt (by omega)]
        intro c hc
        simp at hc

theorem b32EncCore_chars : ∀ (l : List Nat) (ve be : Nat),
    ∀ c ∈ b32EncCore l ve be, ∃ n, n < 32 ∧ c = b32char n := by
  intro l
  induction l with
  | nil =>
      intro ve be c hc
      simp only [b32EncCore] at hc
      split at hc
      · rcases List.mem_singleton.mp hc with rfl
        exact ⟨_, by omega, rfl⟩
      · simp at hc
  | cons b t ih =>
      intro ve be c hc
      simp only [b32EncCore] at hc
      rcases List.mem_append.mp hc with h1 | h2
      · exact emitB32_chars _ _ c h1
      · exact ih _ _ c h2

theorem b32char_facts : ∀ n : Nat, n < 32 →
    jsToUpper (b32char n) = b32char n ∧ (b32char n == '=') = false := by
  decide

theorem stripTrailingEq_append (core : List Char) (k : Nat)
    (h : ∀ c ∈ core, (c == '=') = false) :
    stripTrailingEq (core ++ List.replicate k '=') = core := by
  unfold stripTrailingEq
  rw [List.reverse_append, List.reverse_replicate]
  have h1 : (List.replicate k '=' ++ core.reverse).dropWhile (fun c => c == '=')
      = core.reverse.dropWhile (fun c => c == '=') := by
    induction k with
    | zero => simp
    | succ j ihm => simp [List.replicate_succ, List.dropWhile_cons, ihm]
  have h2 : core.reverse.dropWhile (fun c => c == '=') = core.reverse := by
    cases hrev : core.reverse with
    | nil => simp
    | cons hd tl =>
        have hmem : hd ∈ core := by
          have hmem2 : hd ∈ core.reverse := by
            rw [hrev]
            simp
          simpa using hmem2
        rw [List.dropWhile_cons, h hd hmem]
        simp
  rw [h1, h2, List.reverse_reverse]

theorem map_jsToUpper_enc (l : List Nat) (ve be : Nat) :
    (b32EncCore l ve be).map jsToUpper = b32EncCore l ve be := by
  have hall : ∀ c ∈ b32EncCore l ve be, jsToUpper c = c := by
    intro c hc
    obtain ⟨n, hn, rfl⟩ := b32EncCore_chars l ve be c hc
    exact (b32char_facts n hn).1
  calc (b32EncCore l ve be).map jsToUpper
      = (b32EncCore l ve be).map id := List.map_congr_left hall
    _ = b32EncCore l ve be := List.map_id _

/-- C10: decoding the base32 string produced by the migration encoder
    recovers exactly the original bytes: the encoder pads with the equals
    sign to a multiple of eight characters, the decoder strips the trailing
    padding, and the five-bit regrouping through the int32 accumulators is
    lossless. -/
theorem c10_base32_roundtrip (bytes : List Nat) (h : ∀ x ∈ bytes, x < 256) :
    base32ToBytes (bytesToBase32 bytes) = some bytes := by
  have hne : ∀ c ∈ b32EncCore bytes 0 0, (c == '=') = false := by
    intro c hc
    obtain ⟨n, hn, rfl⟩ := b32EncCore_chars bytes 0 0 c hc
    exact (b32char_facts n hn).2
  unfold bytesToBase32 base32ToBytes
  rw [stripTrailingEq_append _ _ hne, map_jsToUpper_enc]
  have hcore := b32_core_roundtrip bytes 0 0 0 0 h (by omega) (fun _ => rfl)
    (by omega)
  simpa using hcore

/-- C10 witness: the round trip applied at the concrete byte list of the
    ASCII word Hello. -/
theorem c10_witness :
    base32ToBytes (bytesToBase32 [72, 101, 108, 108, 111])
      = some [72, 101, 108, 108, 111] :=
  c10_base32_roundtrip [72, 101, 108, 108, 111] (by decide)
